import Mathlib

/-!
Verification of the extraction-and-normalization pipeline of the
baseball-analytics repository.

The Python sources are shallowly embedded as executable Lean functions:

* `dedup` models `pandas.DataFrame.drop_duplicates()` (keep the first
  occurrence of every fully-equal row, preserving order), used by
  `clean_events_data`, `clean_players_data` and `clean_statistics_data`
  in `database_import.py`.
* `clean_events_data`, `clean_players_data`, `clean_statistics_data`
  model the corresponding `DatabaseImporter` methods.  A raw numeric CSV
  cell is represented by the result of `pd.to_numeric(..., errors='coerce')`,
  i.e. an `Option Int` (`none` = NaN: the cell was missing or unparsable);
  a raw text cell is an `Option String` (`none` = NaN/missing).
* `validate_csv_file`, `import_statistics_table`, `run_import` model
  the CSV-loading control flow of `database_import.py`.
* `mvpCleanLeague` and `mvpCleanTeam` model the two field-normalization
  lines of `clean_mvp_data` in `dashboard.py` (the regex search
  `[AN]\.?L\.?` followed by removal of periods, and the regex replacement
  of `\s*\(\d+\)` by the empty string).
* `groupRecords` models the Record Grouper described in the specification
  (the grouping code itself is not among the provided sources).
-/

namespace Baseball

/-! ## Deduplication (`DataFrame.drop_duplicates`, keep='first') -/

/-- `drop_duplicates()` of pandas: keep a row iff it has not been seen
before; `seen` accumulates the rows already kept/encountered. -/
def dedupAux {α : Type} [DecidableEq α] (seen : List α) : List α → List α
  | [] => []
  | x :: xs => if x ∈ seen then dedupAux seen xs else x :: dedupAux (x :: seen) xs

/-- Embedding of `df.drop_duplicates()`: remove every row that equals an
earlier row, keeping first occurrences in order. -/
def dedup {α : Type} [DecidableEq α] (l : List α) : List α := dedupAux [] l

/-- Specification-side formulation of the duplicate policy, following the
claim's words: walking the sequence in order, a record is removed exactly
when some earlier record (`pre`, the records before it) is equal to it;
otherwise it is kept unchanged. -/
def firstOccAux {α : Type} [DecidableEq α] (pre : List α) : List α → List α
  | [] => []
  | x :: xs =>
    if x ∈ pre then firstOccAux (pre ++ [x]) xs else x :: firstOccAux (pre ++ [x]) xs

/-- A record survives iff no earlier record of the sequence equals it. -/
def firstOccSpec {α : Type} [DecidableEq α] (l : List α) : List α := firstOccAux [] l

theorem dedupAux_eq_firstOccAux {α : Type} [DecidableEq α] :
    ∀ (l seen pre : List α), (∀ y, y ∈ seen ↔ y ∈ pre) →
      dedupAux seen l = firstOccAux pre l := by
  intro l
  induction l with
  | nil => intro seen pre _; rfl
  | cons x xs ih =>
    intro seen pre hmem
    by_cases hx : x ∈ seen
    · rw [dedupAux, if_pos hx, firstOccAux, if_pos ((hmem x).mp hx)]
      exact ih seen (pre ++ [x]) (fun y => by
        rw [hmem y, List.mem_append, List.mem_singleton]
        constructor
        · exact Or.inl
        · rintro (h | rfl)
          · exact h
          · exact (hmem y).mp hx)
    · rw [dedupAux, if_neg hx, firstOccAux, if_neg (fun h => hx ((hmem x).mpr h))]
      congr 1
      exact ih (x :: seen) (pre ++ [x]) (fun y => by
        rw [List.mem_cons, hmem y, List.mem_append, List.mem_singleton, or_comm])

theorem dedup_eq_firstOccSpec {α : Type} [DecidableEq α] (l : List α) :
    dedup l = firstOccSpec l :=
  dedupAux_eq_firstOccAux l [] [] (fun _ => Iff.rfl)

theorem dedupAux_sublist {α : Type} [DecidableEq α] :
    ∀ (l seen : List α), (dedupAux seen l).Sublist l := by
  intro l
  induction l with
  | nil => intro seen; exact List.Sublist.refl []
  | cons x xs ih =>
    intro seen
    rw [dedupAux]
    by_cases hx : x ∈ seen
    · rw [if_pos hx]; exact (ih seen).cons x
    · rw [if_neg hx]; exact (ih (x :: seen)).cons₂ x

/-- The kept rows are a sublist of the input: order and values preserved. -/
theorem dedup_sublist {α : Type} [DecidableEq α] (l : List α) :
    (dedup l).Sublist l := dedupAux_sublist l []

theorem mem_dedupAux {α : Type} [DecidableEq α] :
    ∀ (l seen : List α) (x : α), x ∈ l → x ∈ seen ∨ x ∈ dedupAux seen l := by
  intro l
  induction l with
  | nil => intro seen x hx; cases hx
  | cons y ys ih =>
    intro seen x hx
    rw [dedupAux]
    rcases List.mem_cons.mp hx with rfl | hx'
    · by_cases hy : x ∈ seen
      · exact Or.inl hy
      · rw [if_neg hy]; exact Or.inr (List.mem_cons_self x _)
    · by_cases hy : y ∈ seen
      · rw [if_pos hy]; exact ih seen x hx'
      · rw [if_neg hy]
        rcases ih (y :: seen) x hx' with h | h
        · rcases List.mem_cons.mp h with rfl | h'
          · exact Or.inr (List.mem_cons_self x _)
          · exact Or.inl h'
        · exact Or.inr (List.mem_cons_of_mem y h)

/-- Every input row is still represented (as a value) after deduplication. -/
theorem mem_dedup {α : Type} [DecidableEq α] {l : List α} {x : α}
    (hx : x ∈ l) : x ∈ dedup l := by
  rcases mem_dedupAux l [] x hx with h | h
  · cases h
  · exact h

theorem nodup_dedupAux {α : Type} [DecidableEq α] :
    ∀ (l seen : List α), (dedupAux seen l).Nodup ∧ ∀ x ∈ dedupAux seen l, x ∉ seen := by
  intro l
  induction l with
  | nil => intro seen; exact ⟨List.nodup_nil, fun x hx => absurd hx (List.not_mem_nil x)⟩
  | cons y ys ih =>
    intro seen
    rw [dedupAux]
    by_cases hy : y ∈ seen
    · rw [if_pos hy]; exact ih seen
    · rw [if_neg hy]
      obtain ⟨hnd, hns⟩ := ih (y :: seen)
      refine ⟨List.nodup_cons.mpr ⟨fun hmem => (hns y hmem) (List.mem_cons_self y _), hnd⟩, ?_⟩
      intro x hx
      rcases List.mem_cons.mp hx with rfl | hx'
      · exact hy
      · exact fun hxs => (hns x hx') (List.mem_cons_of_mem y hxs)

/-- After deduplication no two kept rows are equal on every field. -/
theorem dedup_nodup {α : Type} [DecidableEq α] (l : List α) :
    (dedup l).Nodup := (nodup_dedupAux l []).1

/-! ## `database_import.py`: rows and the per-table cleaning methods

A raw CSV row is represented after `pd.to_numeric(..., errors='coerce')`
interpretation of its numeric cells: `Option Int` (`none` = NaN, i.e. the
cell was missing or did not parse as a number) and `Option String` for
text cells (`none` = NaN/missing). -/

structure EventsRaw where
  year : Option Int
  event_type : Option String
  description : Option String
  value : Option String
  category : Option String
deriving DecidableEq, Repr

structure EventsClean where
  year : Int
  event_type : String
  description : String
  value : String
  category : String
deriving DecidableEq, Repr

/-- Lines 119-123 of `database_import.py`:
`df['year'] = pd.to_numeric(df['year'], errors='coerce').fillna(2023).astype(int)`
and the `fillna` defaults of the text columns. -/
def normalizeEvent (r : EventsRaw) : EventsClean :=
  { year := r.year.getD 2023
    event_type := r.event_type.getD "unknown"
    description := r.description.getD ""
    value := r.value.getD ""
    category := r.category.getD "general" }

/-- `DatabaseImporter.clean_events_data`: drop duplicate rows, fill
missing values (unparsable years become 2023), then keep only rows with
`1900 <= year <= 2025`. -/
def clean_events_data (rows : List EventsRaw) : List EventsClean :=
  ((dedup rows).map normalizeEvent).filter (fun r => 1900 ≤ r.year && r.year ≤ 2025)

structure PlayersRaw where
  player_name : Option String
  stat_value : Option String
  stat_type : Option String
  team : Option String
  category : Option String
  rank : Option String
deriving DecidableEq, Repr

structure PlayersClean where
  player_name : String
  stat_value : String
  stat_type : String
  team : String
  category : String
  rank : String
deriving DecidableEq, Repr

/-- Lines 147-152 of `database_import.py`: the `fillna` defaults of the
players columns (a missing `player_name` becomes `"Unknown Player"`). -/
def normalizePlayer (r : PlayersRaw) : PlayersClean :=
  { player_name := r.player_name.getD "Unknown Player"
    stat_value := r.stat_value.getD "0"
    stat_type := r.stat_type.getD "unknown"
    team := r.team.getD "Unknown Team"
    category := r.category.getD "general"
    rank := r.rank.getD "0" }

/-- The ASCII whitespace characters stripped by Python's `str.strip()`
(and matched by the regex class `\s`). -/
def isSpaceChar (c : Char) : Bool :=
  c = ' ' || c = '\t' || c = '\n' || c = '\r' || c = '\x0b' || c = '\x0c'

/-- Python's `str.strip()`: remove leading and trailing whitespace. -/
def pyStrip (s : String) : String :=
  String.mk (((s.data.dropWhile isSpaceChar).reverse.dropWhile isSpaceChar).reverse)

/-- `DatabaseImporter.clean_players_data`: drop duplicates, fill missing
values, then `df = df[df['player_name'].str.strip() != '']`. -/
def clean_players_data (rows : List PlayersRaw) : List PlayersClean :=
  ((dedup rows).map normalizePlayer).filter (fun r => pyStrip r.player_name ≠ "")

structure StatsRaw where
  year : Option Int
  team : Option String
  category : Option String
  games_played : Option Int
  wins : Option Int
  losses : Option Int
  league : Option String
deriving DecidableEq, Repr

structure StatsClean where
  year : Int
  team : String
  category : String
  games_played : Int
  wins : Int
  losses : Int
  league : String
deriving DecidableEq, Repr

/-- Lines 173-185 of `database_import.py`: the sample rows synthesized
when the statistics DataFrame is empty (`for year in range(2020, 2025)`). -/
def sampleStatsRaw : List StatsRaw :=
  [2020, 2021, 2022, 2023, 2024].map (fun y =>
    { year := some y
      team := some "MLB Average"
      category := some "league_stats"
      games_played := some 162
      wins := some 81
      losses := some 81
      league := some "MLB" })

/-- Lines 194-205 of `database_import.py`: `fillna` defaults and numeric
coercion of the statistics columns. -/
def normalizeStat (r : StatsRaw) : StatsClean :=
  { year := r.year.getD 2023
    team := r.team.getD "Unknown Team"
    category := r.category.getD "general"
    games_played := r.games_played.getD 0
    wins := r.wins.getD 0
    losses := r.losses.getD 0
    league := r.league.getD "MLB" }

/-- Lines 207-210 of `database_import.py`: the three range filters applied
to the cleaned statistics rows. -/
def validStat (r : StatsClean) : Bool :=
  (1900 ≤ r.year && r.year ≤ 2025) &&
  (0 ≤ r.games_played && r.games_played ≤ 200) &&
  (0 ≤ r.wins && 0 ≤ r.losses)

/-- The statistics pipeline downstream of the empty-DataFrame check:
drop duplicates, fill/coerce, range-filter. -/
def cleanStatsPipeline (rows : List StatsRaw) : List StatsClean :=
  ((dedup rows).map normalizeStat).filter validStat

/-- `DatabaseImporter.clean_statistics_data`: if the DataFrame is empty it
is first replaced by the synthesized sample rows (lines 170-185), then the
common pipeline runs. -/
def clean_statistics_data (rows : List StatsRaw) : List StatsClean :=
  cleanStatsPipeline (if rows.isEmpty then sampleStatsRaw else rows)

/-! ## `database_import.py`: import control flow

A CSV file on disk is modelled by its parsed content: `none` when the
file is missing or unreadable, `some rows` otherwise (`rows = []` for a
CSV with no data rows). -/

/-- `DatabaseImporter.validate_csv_file`: reject a missing/unreadable file
and an empty DataFrame. -/
def validate_csv_file {α : Type} (content : Option (List α)) : Bool :=
  match content with
  | none => false
  | some rows => !rows.isEmpty

/-- `DatabaseImporter.import_csv_to_table` for the statistics table:
skip the file when validation fails, otherwise clean and load; returns
the rows handed to the database (`none` when the import was skipped or
produced no rows). -/
def import_statistics_table (content : Option (List StatsRaw)) : Bool × Option (List StatsClean) :=
  if validate_csv_file content then
    let rows := content.getD []
    let cleaned := clean_statistics_data rows
    if cleaned.length = 0 then (false, none) else (true, some cleaned)
  else (false, none)

/-- One import run's environment: whether connecting and table creation
succeed, and the outcome of `import_csv_to_table` per destination table. -/
structure ImportEnv where
  connectOk : Bool
  createOk : Bool
  tableResult : String → Bool

/-- The fixed list of (csv path, table) pairs of `run_import`. -/
def csvFiles : List (String × String) :=
  [("data/raw/events.csv", "events"),
   ("data/raw/players.csv", "players"),
   ("data/raw/statistics.csv", "statistics")]

/-- `DatabaseImporter.run_import`: after connecting and creating tables,
loop over all csv files unconditionally, counting successes; the returned
flag is `success_count > 0`.  Result: (tables attempted, returned flag). -/
def run_import (env : ImportEnv) : List String × Bool :=
  if !env.connectOk then ([], false)
  else if !env.createOk then ([], false)
  else
    let step := fun (acc : List String × Nat) (p : String × String) =>
      (acc.1 ++ [p.2], if env.tableResult p.2 then acc.2 + 1 else acc.2)
    let r := csvFiles.foldl step ([], 0)
    (r.1, decide (0 < r.2))

/-! ## `dashboard.py`, `clean_mvp_data`: league and team normalization

Line 126: `mvp_df["league"].str.extract(r"([AN]\.?L\.?)", expand=False)` —
`re.search` semantics: the leftmost position where the (case-sensitive)
pattern matches, greedy on the optional periods; no match gives NaN.
Line 127: `.str.replace(".", "", regex=False)` removes all periods.  -/

/-- Match of the tail `\.?L\.?` of the pattern at the head of the list,
returning the matched characters (greedy, backtracking as `re` does). -/
def leagueTail : List Char → Option (List Char)
  | '.' :: 'L' :: '.' :: _ => some ['.', 'L', '.']
  | '.' :: 'L' :: _ => some ['.', 'L']
  | 'L' :: '.' :: _ => some ['L', '.']
  | 'L' :: _ => some ['L']
  | _ => none

/-- Match of `[AN]\.?L\.?` at the head of the list. -/
def matchLeagueAt : List Char → Option (List Char)
  | [] => none
  | c :: rest =>
    if c = 'A' ∨ c = 'N' then (leagueTail rest).map (fun t => c :: t) else none

/-- First (leftmost) match of `[AN]\.?L\.?` in the list — the semantics of
`Series.str.extract` with a single group. -/
def extractLeague : List Char → Option (List Char)
  | [] => none
  | c :: rest =>
    match matchLeagueAt (c :: rest) with
    | some m => some m
    | none => extractLeague rest

/-- `dashboard.py` lines 126-127: extract the first `[AN]\.?L\.?` match
from the raw league text and delete its periods; `none` models the NaN a
failed extract leaves in the column. -/
def mvpCleanLeague (s : String) : Option String :=
  (extractLeague s.data).map (fun m => String.mk (m.filter (fun c => c ≠ '.')))

/-- After one or more digits: keep consuming digits, then require `)`;
returns the remainder of the list after the closing parenthesis. -/
def closeAfterDigits : List Char → Option (List Char)
  | [] => none
  | c :: rest =>
    if c.isDigit then closeAfterDigits rest
    else if c = ')' then some rest else none

/-- Match `\d+\)` at the head of the list, returning the remainder. -/
def digitsThenClose : List Char → Option (List Char)
  | [] => none
  | c :: rest => if c.isDigit then closeAfterDigits rest else none

/-- Match `\s*\(\d+\)` at the head of the list, returning the remainder
after the match (`none` when the pattern does not match here). -/
def scanParenNum (cs : List Char) : Option (List Char) :=
  match cs.dropWhile isSpaceChar with
  | '(' :: r2 => digitsThenClose r2
  | _ => none

/-- Replace every non-overlapping, leftmost-first match of `\s*\(\d+\)`
with the empty string — the semantics of
`Series.str.replace(r'\s*\(\d+\)', '', regex=True)`.  The fuel argument
(initially the list length) only bounds the recursion; it is never
exhausted because every step consumes at least one character. -/
def stripParenFuel : Nat → List Char → List Char
  | 0, cs => cs
  | Nat.succ _, [] => []
  | Nat.succ n, c :: rest =>
    match scanParenNum (c :: rest) with
    | some r => stripParenFuel n r
    | none => c :: stripParenFuel n rest

/-- `dashboard.py` line 130: remove every `\s*\(\d+\)` occurrence from the
raw team text.  No trimming and no anchoring to the end of the string. -/
def mvpCleanTeam (s : String) : String :=
  String.mk (stripParenFuel s.data.length s.data)

/-! ## Record Grouper

Modelled from the spec: the Record Grouper of §4.1 (the stateful grouping
of a flat Cell stream into RawRecords) is not among the provided source
files, so it is embedded from the specification's algorithm: a boundary
cell (boundary class, text a pure integer after stripping one trailing
period) flushes a non-empty open accumulator and opens a fresh one keyed
by the boundary value; a field cell (field class, non-empty text) appends
its text to the open accumulator; other cells are ignored; at the end of
the stream a non-empty accumulator is flushed; an accumulator that never
received a field is dropped. -/

structure Cell where
  tag : String
  text : String
deriving DecidableEq, Repr

structure RawRecord where
  key : String
  fields : List String
deriving DecidableEq, Repr

/-- Strip a single trailing period from the text (e.g. `"1."` → `"1"`). -/
def stripTrailingPeriod (cs : List Char) : List Char :=
  match cs.reverse with
  | '.' :: r => r.reverse
  | _ => cs

/-- Boundary cell: the boundary class, and a text that is digits-only and
non-empty after stripping one trailing period (a strict predicate, not
best-effort parsing). -/
def isBoundaryCell (bTag : String) (c : Cell) : Bool :=
  c.tag == bTag &&
    (let t := stripTrailingPeriod c.text.data
     !t.isEmpty && t.all Char.isDigit)

/-- Field cell: the field class with non-empty text. -/
def isFieldCell (fTag : String) (c : Cell) : Bool :=
  c.tag == fTag && c.text ≠ ""

/-- The open accumulator: grouping key and fields collected so far. -/
structure GroupState where
  key : String
  fields : List String
deriving DecidableEq, Repr

/-- Flushing an accumulator emits it as a RawRecord. -/
def flushRec (acc : GroupState) : RawRecord := ⟨acc.key, acc.fields⟩

/-- One transition of the grouper: next accumulator state and the records
emitted by this cell. -/
def groupStep (bTag fTag : String) (st : Option GroupState) (c : Cell) :
    Option GroupState × List RawRecord :=
  if isBoundaryCell bTag c then
    match st with
    | some acc =>
      if acc.fields.isEmpty then (some ⟨c.text, []⟩, [])
      else (some ⟨c.text, []⟩, [flushRec acc])
    | none => (some ⟨c.text, []⟩, [])
  else if isFieldCell fTag c then
    match st with
    | some acc => (some ⟨acc.key, acc.fields ++ [c.text]⟩, [])
    | none => (none, [])
  else (st, [])

/-- Run the grouper over the remaining cells from a given accumulator
state, flushing a non-empty accumulator at the end of the stream. -/
def groupAux (bTag fTag : String) : Option GroupState → List Cell → List RawRecord
  | st, [] =>
    match st with
    | some acc => if acc.fields.isEmpty then [] else [flushRec acc]
    | none => []
  | st, c :: cs =>
    let p := groupStep bTag fTag st c
    p.2 ++ groupAux bTag fTag p.1 cs

/-- The Record Grouper: fold the cell stream from the empty state. -/
def groupRecords (bTag fTag : String) (cells : List Cell) : List RawRecord :=
  groupAux bTag fTag none cells

/-- Number of boundary cells in the stream. -/
def boundaryCount (bTag : String) (cells : List Cell) : Nat :=
  cells.countP (isBoundaryCell bTag)

/-- Does the segment before the next boundary cell (or the end of the
stream) contain a field cell? -/
def segmentHasField (bTag fTag : String) : List Cell → Bool
  | [] => false
  | c :: cs =>
    if isBoundaryCell bTag c then false
    else if isFieldCell fTag c then true
    else segmentHasField bTag fTag cs

/-- Every opened accumulator receives at least one field cell: after each
boundary cell, a field cell occurs before the next boundary cell or the
end of the stream. -/
def allOpenedFed (bTag fTag : String) : List Cell → Bool
  | [] => true
  | c :: cs =>
    if isBoundaryCell bTag c then
      segmentHasField bTag fTag cs && allOpenedFed bTag fTag cs
    else allOpenedFed bTag fTag cs

/-- Number of boundary cells whose segment contains a field cell. -/
def fedBoundaryCount (bTag fTag : String) : List Cell → Nat
  | [] => 0
  | c :: cs =>
    if isBoundaryCell bTag c then
      (if segmentHasField bTag fTag cs then 1 else 0) + fedBoundaryCount bTag fTag cs
    else fedBoundaryCount bTag fTag cs

/-- The brother-sets cell stream of the spec's end-to-end scenario. -/
def demoCells : List Cell :=
  [⟨"idx", "1."⟩, ⟨"box", "Hank Aaron"⟩, ⟨"box", "Tommie Aaron"⟩,
   ⟨"idx", "2."⟩, ⟨"box", "Joe DiMaggio"⟩, ⟨"box", "Dom DiMaggio"⟩, ⟨"box", "Vince DiMaggio"⟩]

/-! ## Claim theorems -/

/-- Claim C4: deduplication removes a record exactly when an earlier
record in the sequence equals it on every field (`firstOccSpec` states
this policy literally), the survivors are a sublist of the input (first
occurrences, values unchanged, relative order preserved), and no two
survivors are equal — for the events, players and statistics tables. -/
theorem c4_dedup_first_wins :
    (∀ l : List EventsRaw, dedup l = firstOccSpec l ∧ (dedup l).Sublist l ∧ (dedup l).Nodup)
    ∧ (∀ l : List PlayersRaw, dedup l = firstOccSpec l ∧ (dedup l).Sublist l ∧ (dedup l).Nodup)
    ∧ (∀ l : List StatsRaw, dedup l = firstOccSpec l ∧ (dedup l).Sublist l ∧ (dedup l).Nodup) :=
  ⟨fun l => ⟨dedup_eq_firstOccSpec l, dedup_sublist l, dedup_nodup l⟩,
   fun l => ⟨dedup_eq_firstOccSpec l, dedup_sublist l, dedup_nodup l⟩,
   fun l => ⟨dedup_eq_firstOccSpec l, dedup_sublist l, dedup_nodup l⟩⟩

/-- Claim C2: an events record whose raw year did not parse as a number
is coerced to the default year 2023 during normalization and is present
in the cleaned output (2023 lies inside the valid range), never rejected
at that stage. -/
theorem c2_unparsable_year_coerced (rows : List EventsRaw) (r : EventsRaw)
    (hmem : r ∈ rows) (hyear : r.year = none) :
    (normalizeEvent r).year = 2023 ∧ normalizeEvent r ∈ clean_events_data rows := by
  have hy : (normalizeEvent r).year = 2023 := by
    simp [normalizeEvent, hyear]
  refine ⟨hy, ?_⟩
  unfold clean_events_data
  apply List.mem_filter.mpr
  refine ⟨List.mem_map_of_mem normalizeEvent (mem_dedup hmem), ?_⟩
  rw [hy]
  decide

/-- Witness for C2: a concrete events row with an unparsable year is kept
with year 2023. -/
theorem c2_witness :
    (normalizeEvent ⟨none, some "award", some "d", some "v", some "c"⟩).year = 2023 ∧
      normalizeEvent ⟨none, some "award", some "d", some "v", some "c"⟩ ∈
        clean_events_data
          [⟨some 1961, some "expansion", some "d", some "v", some "c"⟩,
           ⟨none, some "award", some "d", some "v", some "c"⟩] :=
  c2_unparsable_year_coerced
    [⟨some 1961, some "expansion", some "d", some "v", some "c"⟩,
     ⟨none, some "award", some "d", some "v", some "c"⟩]
    ⟨none, some "award", some "d", some "v", some "c"⟩ (by decide) (by decide)

/-- Claim C7: an empty statistics input is replaced by exactly five
synthesized rows, one per year 2020-2024, each `"MLB Average"` /
`"league_stats"` / 162 games / 81 wins / 81 losses / league `"MLB"`; the
fabrication takes no configuration flag, and the events and players
cleaners fabricate nothing on empty input. -/
theorem c7_statistics_sample_fabrication :
    clean_statistics_data [] =
      [⟨2020, "MLB Average", "league_stats", 162, 81, 81, "MLB"⟩,
       ⟨2021, "MLB Average", "league_stats", 162, 81, 81, "MLB"⟩,
       ⟨2022, "MLB Average", "league_stats", 162, 81, 81, "MLB"⟩,
       ⟨2023, "MLB Average", "league_stats", 162, 81, 81, "MLB"⟩,
       ⟨2024, "MLB Average", "league_stats", 162, 81, 81, "MLB"⟩]
    ∧ clean_events_data [] = [] ∧ clean_players_data [] = [] := by
  refine ⟨?_, ?_, ?_⟩ <;> decide

/-- Claim C3: every record in the cleaned statistics output satisfies
`1900 ≤ year ≤ 2025`, `0 ≤ games_played ≤ 200`, `wins ≥ 0`, `losses ≥ 0`
(violating records are dropped), and an input record whose normalized
values satisfy the ranges passes through with those values unchanged. -/
theorem c3_range_validation (rows : List StatsRaw) :
    (∀ s ∈ clean_statistics_data rows,
        1900 ≤ s.year ∧ s.year ≤ 2025 ∧ 0 ≤ s.games_played ∧ s.games_played ≤ 200 ∧
          0 ≤ s.wins ∧ 0 ≤ s.losses)
    ∧ (∀ r ∈ rows, validStat (normalizeStat r) = true →
        normalizeStat r ∈ clean_statistics_data rows) := by
  constructor
  · intro s hs
    unfold clean_statistics_data cleanStatsPipeline at hs
    have hv := (List.mem_filter.mp hs).2
    simp only [validStat, Bool.and_eq_true, decide_eq_true_eq] at hv
    obtain ⟨⟨⟨h1, h2⟩, h3, h4⟩, h5, h6⟩ := hv
    exact ⟨h1, h2, h3, h4, h5, h6⟩
  · intro r hr hv
    have hne : rows.isEmpty = false := by
      cases rows with
      | nil => cases hr
      | cons a l => rfl
    unfold clean_statistics_data cleanStatsPipeline
    rw [hne]
    simp only [Bool.false_eq_true, if_false]
    exact List.mem_filter.mpr ⟨List.mem_map_of_mem normalizeStat (mem_dedup hr), hv⟩

/-- Witness for C3: with a year-1850 row, a games-250 row and a regular
162-game 2023 row in the input, the regular row is kept unchanged and, as
an output row, satisfies all range bounds. -/
theorem c3_witness :
    normalizeStat ⟨some 2023, some "Dodgers", some "team_record", some 162, some 81, some 81, some "MLB"⟩ ∈
      clean_statistics_data
        [⟨some 1850, some "Atlantics", some "team_record", some 100, some 50, some 50, some "MLB"⟩,
         ⟨some 2023, some "Dodgers", some "team_record", some 162, some 81, some 81, some "MLB"⟩,
         ⟨some 2023, some "Giants", some "team_record", some 250, some 120, some 42, some "MLB"⟩]
    ∧ 1900 ≤ (normalizeStat ⟨some 2023, some "Dodgers", some "team_record", some 162, some 81, some 81, some "MLB"⟩).year :=
  have h := (c3_range_validation
      [⟨some 1850, some "Atlantics", some "team_record", some 100, some 50, some 50, some "MLB"⟩,
       ⟨some 2023, some "Dodgers", some "team_record", some 162, some 81, some 81, some "MLB"⟩,
       ⟨some 2023, some "Giants", some "team_record", some 250, some 120, some 42, some "MLB"⟩]).2
    ⟨some 2023, some "Dodgers", some "team_record", some 162, some 81, some 81, some "MLB"⟩
    (by decide) (by decide)
  ⟨h, ((c3_range_validation
      [⟨some 1850, some "Atlantics", some "team_record", some 100, some 50, some 50, some "MLB"⟩,
       ⟨some 2023, some "Dodgers", some "team_record", some 162, some 81, some 81, some "MLB"⟩,
       ⟨some 2023, some "Giants", some "team_record", some 250, some 120, some 42, some "MLB"⟩]).1
    _ h).1⟩

/-- Counterexample to claim C5 as stated: a players row whose
`player_name` is missing is not dropped — it is kept with the fill value
`"Unknown Player"`, so the cleaned output is not empty. -/
theorem c5_counterexample :
    clean_players_data
        [⟨none, some "755", some "career home runs", some "Career", some "career_leaders", some "1"⟩] =
      [⟨"Unknown Player", "755", "career home runs", "Career", "career_leaders", "1"⟩]
    ∧ ([⟨"Unknown Player", "755", "career home runs", "Career", "career_leaders", "1"⟩] :
        List PlayersClean) ≠ [] :=
  ⟨by decide, by decide⟩

/-- Claim C5 amended: a players record whose `player_name` is present but
empty after stripping whitespace is dropped; a record with a missing
`player_name` is instead kept with the fill value `"Unknown Player"`; no
record of the cleaned output has a whitespace-only or empty name. -/
theorem c5_required_player_name (rows : List PlayersRaw) :
    (∀ r ∈ clean_players_data rows, pyStrip r.player_name ≠ "")
    ∧ (∀ r ∈ rows, r.player_name = none →
        normalizePlayer r ∈ clean_players_data rows ∧
          (normalizePlayer r).player_name = "Unknown Player")
    ∧ (∀ r ∈ rows, ∀ s, r.player_name = some s → pyStrip s = "" →
        normalizePlayer r ∉ clean_players_data rows) := by
  refine ⟨?_, ?_, ?_⟩
  · intro r hr
    have h := (List.mem_filter.mp hr).2
    simpa using h
  · intro r hr hname
    have hpn : (normalizePlayer r).player_name = "Unknown Player" := by
      simp [normalizePlayer, hname]
    refine ⟨List.mem_filter.mpr ⟨List.mem_map_of_mem normalizePlayer (mem_dedup hr), ?_⟩, hpn⟩
    rw [hpn]
    decide
  · intro r hr s hs hstrip hmem
    have h := (List.mem_filter.mp hmem).2
    have h' : pyStrip (normalizePlayer r).player_name ≠ "" := by simpa using h
    apply h'
    simp [normalizePlayer, hs, hstrip]

/-- Witness for the amended C5: concretely, a missing-name row is kept as
`"Unknown Player"` and a whitespace-only-name row is dropped. -/
theorem c5_witness :
    (normalizePlayer ⟨none, some "755", some "hr", some "Career", some "c", some "1"⟩ ∈
        clean_players_data
          [⟨none, some "755", some "hr", some "Career", some "c", some "1"⟩,
           ⟨some "  ", some "714", some "hr", some "Career", some "c", some "2"⟩]
      ∧ (normalizePlayer ⟨none, some "755", some "hr", some "Career", some "c", some "1"⟩).player_name =
          "Unknown Player")
    ∧ normalizePlayer ⟨some "  ", some "714", some "hr", some "Career", some "c", some "2"⟩ ∉
        clean_players_data
          [⟨none, some "755", some "hr", some "Career", some "c", some "1"⟩,
           ⟨some "  ", some "714", some "hr", some "Career", some "c", some "2"⟩] :=
  ⟨(c5_required_player_name
      [⟨none, some "755", some "hr", some "Career", some "c", some "1"⟩,
       ⟨some "  ", some "714", some "hr", some "Career", some "c", some "2"⟩]).2.1
      ⟨none, some "755", some "hr", some "Career", some "c", some "1"⟩ (by decide) (by decide),
   (c5_required_player_name
      [⟨none, some "755", some "hr", some "Career", some "c", some "1"⟩,
       ⟨some "  ", some "714", some "hr", some "Career", some "c", some "2"⟩]).2.2
      ⟨some "  ", some "714", some "hr", some "Career", some "c", some "2"⟩ (by decide)
      "  " (by decide) (by decide)⟩

/-- Counterexample to claim C6 as stated: with the events import
succeeding and the players and statistics imports failing, `run_import`
still returns success (`success_count > 0`), although required tables
failed to load. -/
theorem c6_counterexample :
    (run_import ⟨true, true, fun t => t == "events"⟩).2 = true
    ∧ (ImportEnv.mk true true (fun t => t == "events")).tableResult "players" = false
    ∧ "players" ∈ (run_import ⟨true, true, fun t => t == "events"⟩).1 :=
  ⟨by decide, by decide, by decide⟩

/-- Claim C6 amended: once connected with tables created, the pipeline
attempts every table (the loop never stops at a failure), and the run
reports failure exactly when all three table imports failed — one success
suffices for the run to report success. -/
theorem c6_run_import (env : ImportEnv) (hc : env.connectOk = true)
    (hk : env.createOk = true) :
    (run_import env).1 = ["events", "players", "statistics"]
    ∧ ((run_import env).2 = false ↔
        env.tableResult "events" = false ∧ env.tableResult "players" = false ∧
          env.tableResult "statistics" = false) := by
  obtain ⟨c, k, f⟩ := env
  simp only at hc hk
  subst hc
  subst hk
  constructor
  · cases h1 : f "events" <;> cases h2 : f "players" <;> cases h3 : f "statistics" <;>
      simp [run_import, csvFiles, List.foldl, h1, h2, h3]
  · cases h1 : f "events" <;> cases h2 : f "players" <;> cases h3 : f "statistics" <;>
      simp [run_import, csvFiles, List.foldl, h1, h2, h3]

/-- Witness for the amended C6: when every table import fails, all tables
were still attempted and the run reports failure. -/
theorem c6_witness :
    (run_import ⟨true, true, fun _ => false⟩).1 = ["events", "players", "statistics"]
    ∧ ((run_import ⟨true, true, fun _ => false⟩).2 = false ↔
        (ImportEnv.mk true true (fun _ => false)).tableResult "events" = false ∧
          (ImportEnv.mk true true (fun _ => false)).tableResult "players" = false ∧
          (ImportEnv.mk true true (fun _ => false)).tableResult "statistics" = false) :=
  c6_run_import ⟨true, true, fun _ => false⟩ rfl rfl

/-- Claim C10: when `validate_csv_file` accepts the statistics CSV, the
rows handed to the cleaning step are non-empty, so
`clean_statistics_data` runs the plain pipeline — its synthetic-sample
branch is unreachable on the import path, and the imported table is built
from the real rows only. -/
theorem c10_no_fabrication_on_import (content : Option (List StatsRaw))
    (hval : validate_csv_file content = true) :
    ∃ rows, content = some rows ∧ rows ≠ [] ∧
      clean_statistics_data rows = cleanStatsPipeline rows ∧
      import_statistics_table content =
        (if (cleanStatsPipeline rows).length = 0 then (false, none)
         else (true, some (cleanStatsPipeline rows))) := by
  cases content with
  | none => exact absurd hval (by decide)
  | some rows =>
    have hne : rows.isEmpty = false := by
      cases rows with
      | nil => exact absurd hval (by decide)
      | cons a l => rfl
    have hclean : clean_statistics_data rows = cleanStatsPipeline rows := by
      unfold clean_statistics_data
      rw [hne]
      simp only [Bool.false_eq_true, if_false]
    refine ⟨rows, rfl, ?_, hclean, ?_⟩
    · intro h
      rw [h] at hne
      simp at hne
    · unfold import_statistics_table
      simp only [hval, if_true, Option.getD_some, hclean]

/-- Witness for C10: a concrete one-row statistics CSV passes validation,
is handed over non-empty, and is cleaned without fabrication. -/
theorem c10_witness :
    ∃ rows,
      (some [(⟨some 2023, some "Dodgers", some "team_record", some 162, some 100, some 62, some "MLB"⟩ : StatsRaw)]) = some rows ∧
      rows ≠ [] ∧
      clean_statistics_data rows = cleanStatsPipeline rows ∧
      import_statistics_table
          (some [(⟨some 2023, some "Dodgers", some "team_record", some 162, some 100, some 62, some "MLB"⟩ : StatsRaw)]) =
        (if (cleanStatsPipeline rows).length = 0 then (false, none)
         else (true, some (cleanStatsPipeline rows))) :=
  c10_no_fabrication_on_import
    (some [⟨some 2023, some "Dodgers", some "team_record", some 162, some 100, some 62, some "MLB"⟩])
    (by decide)

theorem leagueTail_filter {r t : List Char} (h : leagueTail r = some t) :
    t.filter (fun c => c ≠ '.') = ['L'] := by
  unfold leagueTail at h
  split at h <;> first
    | (injection h with h; rw [← h]; decide)
    | exact Option.noConfusion h

theorem matchLeagueAt_filter {cs m : List Char} (h : matchLeagueAt cs = some m) :
    m.filter (fun c => c ≠ '.') = ['A', 'L'] ∨ m.filter (fun c => c ≠ '.') = ['N', 'L'] := by
  cases cs with
  | nil => cases h
  | cons c rest =>
    replace h : (if c = 'A' ∨ c = 'N' then (leagueTail rest).map (fun t => c :: t) else none) =
        some m := h
    by_cases hc : c = 'A' ∨ c = 'N'
    · rw [if_pos hc] at h
      cases ht : leagueTail rest with
      | none => rw [ht] at h; cases h
      | some t =>
        rw [ht] at h
        simp only [Option.map_some', Option.some.injEq] at h
        have hf := leagueTail_filter ht
        rcases hc with rfl | rfl
        · left
          rw [← h, List.filter_cons_of_pos (by decide), hf]
        · right
          rw [← h, List.filter_cons_of_pos (by decide), hf]
    · rw [if_neg hc] at h
      cases h

theorem extractLeague_filter {cs m : List Char} (h : extractLeague cs = some m) :
    m.filter (fun c => c ≠ '.') = ['A', 'L'] ∨ m.filter (fun c => c ≠ '.') = ['N', 'L'] := by
  induction cs with
  | nil => cases h
  | cons c rest ih =>
    unfold extractLeague at h
    cases hm : matchLeagueAt (c :: rest) with
    | some m0 =>
      rw [hm] at h
      simp only [Option.some.injEq] at h
      exact h ▸ matchLeagueAt_filter hm
    | none =>
      rw [hm] at h
      exact ih h

/-- Counterexample to claim C1 as stated: the extraction regex is
case-sensitive, so the lowercase league text `"a.l."` does not normalize
to `"AL"` — it yields no league at all. -/
theorem c1_counterexample : mvpCleanLeague "a.l." ≠ some "AL" := by decide

/-- Claim C1 amended: league normalization extracts the first substring
matching `[AN]\.?L\.?` **case-sensitively** (uppercase letters only),
strips the periods from the match, and yields exactly `"AL"` or `"NL"`;
unmatched texts (including lowercase `"a.l."` and `"Pacific"`) yield an
empty/unset league; `"A.L."` and `"AL"` normalize to `"AL"` and
`"NL West"` to `"NL"`. -/
theorem c1_league_normalization :
    (∀ s : String,
        mvpCleanLeague s = none ∨ mvpCleanLeague s = some "AL" ∨ mvpCleanLeague s = some "NL")
    ∧ mvpCleanLeague "A.L." = some "AL"
    ∧ mvpCleanLeague "AL" = some "AL"
    ∧ mvpCleanLeague "NL West" = some "NL"
    ∧ mvpCleanLeague "NLAL" = some "NL"
    ∧ mvpCleanLeague "a.l." = none
    ∧ mvpCleanLeague "Pacific" = none := by
  refine ⟨?_, by decide, by decide, by decide, by decide, by decide, by decide⟩
  intro s
  unfold mvpCleanLeague
  cases he : extractLeague s.data with
  | none => exact Or.inl rfl
  | some m =>
    rcases extractLeague_filter he with hf | hf
    · exact Or.inr (Or.inl (by simp only [Option.map_some', Option.some.injEq, hf]))
    · exact Or.inr (Or.inr (by simp only [Option.map_some', Option.some.injEq, hf]))

theorem mem_of_mem_dropWhile {p : Char → Bool} {cs : List Char} {a : Char}
    (h : a ∈ cs.dropWhile p) : a ∈ cs := by
  induction cs with
  | nil => simp at h
  | cons c rest ih =>
    rw [List.dropWhile_cons] at h
    by_cases hp : p c = true
    · rw [if_pos hp] at h
      exact List.mem_cons_of_mem _ (ih h)
    · rw [if_neg hp] at h
      exact h

theorem paren_mem_of_scan {cs r : List Char} (h : scanParenNum cs = some r) : '(' ∈ cs := by
  unfold scanParenNum at h
  split at h
  · next r2 heq =>
      apply mem_of_mem_dropWhile (p := isSpaceChar)
      rw [heq]
      exact List.mem_cons_self _ _
  · exact Option.noConfusion h

theorem stripParenFuel_no_paren {cs : List Char} (hnp : '(' ∉ cs) :
    ∀ n, stripParenFuel n cs = cs := by
  induction cs with
  | nil => intro n; cases n <;> rfl
  | cons c rest ih =>
    intro n
    cases n with
    | zero => rfl
    | succ k =>
      unfold stripParenFuel
      cases hscan : scanParenNum (c :: rest) with
      | some r => exact absurd (paren_mem_of_scan hscan) hnp
      | none =>
        simp only
        congr 1
        exact ih (fun hm => hnp (List.mem_cons_of_mem _ hm)) k

/-- Counterexample to claim C8 as stated: the replacement is not anchored
to the end of the team text and nothing is trimmed — an interior
`" (3)"` is also removed, so the claimed "only a trailing suffix is
removed, other characters unchanged up to trimming" is false; likewise
surrounding whitespace survives. -/
theorem c8_counterexample :
    mvpCleanTeam "Brewers (3) fans" = "Brewers fans"
    ∧ ("Brewers fans" : String) ≠ "Brewers (3) fans"
    ∧ mvpCleanTeam " Dodgers " ≠ "Dodgers" :=
  ⟨by decide, by decide, by decide⟩

/-- Claim C8 amended: team normalization deletes every occurrence of
optional whitespace followed by `(<digits>)` anywhere in the team text
(not only a trailing one) and performs no trimming: a text without `(`
is returned completely unchanged, and `"Dodgers (3)"` yields
`"Dodgers"`. -/
theorem c8_team_normalization :
    mvpCleanTeam "Dodgers (3)" = "Dodgers"
    ∧ mvpCleanTeam "Brewers (3) fans" = "Brewers fans"
    ∧ mvpCleanTeam " Dodgers " = " Dodgers "
    ∧ ∀ s : String, '(' ∉ s.data → mvpCleanTeam s = s := by
  refine ⟨by decide, by decide, by decide, ?_⟩
  intro s hnp
  unfold mvpCleanTeam
  rw [stripParenFuel_no_paren hnp]

/-- Witness for the amended C8: a parenthesis-free team text is returned
unchanged. -/
theorem c8_witness : mvpCleanTeam "Angels" = "Angels" :=
  c8_team_normalization.2.2.2 "Angels" (by decide)

theorem groupAux_cons (bTag fTag : String) (st : Option GroupState) (c : Cell) (cs : List Cell) :
    groupAux bTag fTag st (c :: cs) =
      (groupStep bTag fTag st c).2 ++ groupAux bTag fTag (groupStep bTag fTag st c).1 cs := rfl

theorem groupStep_boundary_none {bTag : String} (fTag : String) {c : Cell}
    (hb : isBoundaryCell bTag c = true) :
    groupStep bTag fTag none c = (some ⟨c.text, []⟩, []) := by
  simp [groupStep, hb]

theorem groupStep_boundary_empty {bTag : String} (fTag : String) {c : Cell} (k : String)
    (hb : isBoundaryCell bTag c = true) :
    groupStep bTag fTag (some ⟨k, []⟩) c = (some ⟨c.text, []⟩, []) := by
  simp [groupStep, hb]

theorem groupStep_boundary_fed {bTag : String} (fTag : String) {c : Cell} (k f : String)
    (fs : List String) (hb : isBoundaryCell bTag c = true) :
    groupStep bTag fTag (some ⟨k, f :: fs⟩) c = (some ⟨c.text, []⟩, [flushRec ⟨k, f :: fs⟩]) := by
  simp [groupStep, hb]

theorem groupStep_field_none {bTag fTag : String} {c : Cell}
    (hb : isBoundaryCell bTag c = false) (hf : isFieldCell fTag c = true) :
    groupStep bTag fTag none c = (none, []) := by
  simp [groupStep, hb, hf]

theorem groupStep_field_some {bTag fTag : String} {c : Cell} (k : String) (fs : List String)
    (hb : isBoundaryCell bTag c = false) (hf : isFieldCell fTag c = true) :
    groupStep bTag fTag (some ⟨k, fs⟩) c = (some ⟨k, fs ++ [c.text]⟩, []) := by
  simp [groupStep, hb, hf]

theorem groupStep_other {bTag fTag : String} {c : Cell} (st : Option GroupState)
    (hb : isBoundaryCell bTag c = false) (hf : isFieldCell fTag c = false) :
    groupStep bTag fTag st c = (st, []) := by
  simp [groupStep, hb, hf]

theorem groupAux_length (bTag fTag : String) :
    ∀ cs : List Cell,
      (groupAux bTag fTag none cs).length = fedBoundaryCount bTag fTag cs
      ∧ (∀ k, (groupAux bTag fTag (some ⟨k, []⟩) cs).length =
          (if segmentHasField bTag fTag cs then 1 else 0) + fedBoundaryCount bTag fTag cs)
      ∧ (∀ k f fs, (groupAux bTag fTag (some ⟨k, f :: fs⟩) cs).length =
          1 + fedBoundaryCount bTag fTag cs) := by
  intro cs
  induction cs with
  | nil =>
    refine ⟨rfl, fun k => ?_, fun k f fs => ?_⟩
    · simp [groupAux, segmentHasField, fedBoundaryCount]
    · simp [groupAux, flushRec, fedBoundaryCount]
  | cons c cs ih =>
    obtain ⟨ihn, ihe, ihf⟩ := ih
    by_cases hb : isBoundaryCell bTag c = true
    · refine ⟨?_, fun k => ?_, fun k f fs => ?_⟩
      · rw [groupAux_cons, groupStep_boundary_none fTag hb]
        simp only [List.nil_append, ihe c.text, fedBoundaryCount, segmentHasField, hb, if_true]
      · rw [groupAux_cons, groupStep_boundary_empty fTag k hb]
        simp only [List.nil_append, ihe c.text, fedBoundaryCount, segmentHasField, hb, if_true,
          if_false, Bool.false_eq_true]
        omega
      · rw [groupAux_cons, groupStep_boundary_fed fTag k f fs hb]
        simp only [List.singleton_append, List.length_cons, ihe c.text, fedBoundaryCount,
          segmentHasField, hb, if_true]
        omega
    · replace hb : isBoundaryCell bTag c = false := by
        cases h : isBoundaryCell bTag c
        · rfl
        · exact absurd h hb
      by_cases hf : isFieldCell fTag c = true
      · refine ⟨?_, fun k => ?_, fun k f fs => ?_⟩
        · rw [groupAux_cons, groupStep_field_none hb hf]
          simp only [List.nil_append, ihn, fedBoundaryCount, hb, Bool.false_eq_true, if_false]
        · rw [groupAux_cons, groupStep_field_some k [] hb hf]
          simp only [List.nil_append]
          rw [ihf k c.text []]
          simp only [fedBoundaryCount, segmentHasField, hb, hf, Bool.false_eq_true, if_false,
            if_true]
        · rw [groupAux_cons, groupStep_field_some k (f :: fs) hb hf]
          simp only [List.nil_append, List.cons_append]
          rw [ihf k f (fs ++ [c.text])]
          simp only [fedBoundaryCount, hb, Bool.false_eq_true, if_false]
      · replace hf : isFieldCell fTag c = false := by
          cases h : isFieldCell fTag c
          · rfl
          · exact absurd h hf
        refine ⟨?_, fun k => ?_, fun k f fs => ?_⟩
        · rw [groupAux_cons, groupStep_other none hb hf]
          simp only [List.nil_append, ihn, fedBoundaryCount, hb, Bool.false_eq_true, if_false]
        · rw [groupAux_cons, groupStep_other (some ⟨k, []⟩) hb hf]
          simp only [List.nil_append, ihe k, fedBoundaryCount, segmentHasField, hb, hf,
            Bool.false_eq_true, if_false]
        · rw [groupAux_cons, groupStep_other (some ⟨k, f :: fs⟩) hb hf]
          simp only [List.nil_append, ihf k f fs, fedBoundaryCount, hb, Bool.false_eq_true,
            if_false]

theorem fedBoundaryCount_le (bTag fTag : String) :
    ∀ cs : List Cell, fedBoundaryCount bTag fTag cs ≤ boundaryCount bTag cs := by
  intro cs
  induction cs with
  | nil => exact Nat.le_refl 0
  | cons c cs ih =>
    unfold boundaryCount at ih ⊢
    rw [List.countP_cons]
    by_cases hb : isBoundaryCell bTag c = true
    · simp only [fedBoundaryCount, hb, if_true]
      have hseg : (if segmentHasField bTag fTag cs then 1 else 0) ≤ 1 := by
        cases segmentHasField bTag fTag cs
        · simp
        · simp
      omega
    · replace hb : isBoundaryCell bTag c = false := by
        cases h : isBoundaryCell bTag c
        · rfl
        · exact absurd h hb
      simp only [fedBoundaryCount, hb, Bool.false_eq_true, if_false]
      omega

theorem fedBoundaryCount_eq_iff (bTag fTag : String) :
    ∀ cs : List Cell,
      (fedBoundaryCount bTag fTag cs = boundaryCount bTag cs ↔
        allOpenedFed bTag fTag cs = true) := by
  intro cs
  induction cs with
  | nil => simp [fedBoundaryCount, boundaryCount, allOpenedFed]
  | cons c cs ih =>
    have hle := fedBoundaryCount_le bTag fTag cs
    unfold boundaryCount at hle ih ⊢
    rw [List.countP_cons]
    by_cases hb : isBoundaryCell bTag c = true
    · cases hs : segmentHasField bTag fTag cs
      · simp only [fedBoundaryCount, allOpenedFed, hb, hs, if_true, Bool.false_eq_true,
          if_false, Bool.false_and]
        constructor
        · intro h
          omega
        · intro h
          cases h
      · simp only [fedBoundaryCount, allOpenedFed, hb, hs, if_true, Bool.true_and]
        rw [← ih]
        omega
    · replace hb : isBoundaryCell bTag c = false := by
        cases h : isBoundaryCell bTag c
        · rfl
        · exact absurd h hb
      simp only [fedBoundaryCount, allOpenedFed, hb, Bool.false_eq_true, if_false, Nat.add_zero]
      exact ih

theorem groupAux_nil_none (bTag fTag : String) : groupAux bTag fTag none [] = [] := rfl

theorem groupAux_nil_empty (bTag fTag k : String) :
    groupAux bTag fTag (some ⟨k, []⟩) [] = [] := rfl

theorem groupAux_nil_fed (bTag fTag k f : String) (fs : List String) :
    groupAux bTag fTag (some ⟨k, f :: fs⟩) [] = [flushRec ⟨k, f :: fs⟩] := rfl

theorem groupStep_emit_ne_nil (bTag fTag : String) (st : Option GroupState) (c : Cell) :
    ∀ r ∈ (groupStep bTag fTag st c).2, r.fields ≠ [] := by
  intro r hr
  by_cases hb : isBoundaryCell bTag c = true
  · cases st with
    | none =>
      rw [groupStep_boundary_none fTag hb] at hr
      cases hr
    | some acc =>
      obtain ⟨k, fs⟩ := acc
      cases fs with
      | nil =>
        rw [groupStep_boundary_empty fTag k hb] at hr
        cases hr
      | cons f fs =>
        rw [groupStep_boundary_fed fTag k f fs hb] at hr
        simp only [List.mem_singleton] at hr
        subst hr
        simp [flushRec]
  · replace hb : isBoundaryCell bTag c = false := by
      cases h : isBoundaryCell bTag c
      · rfl
      · exact absurd h hb
    by_cases hf : isFieldCell fTag c = true
    · cases st with
      | none =>
        rw [groupStep_field_none hb hf] at hr
        cases hr
      | some acc =>
        obtain ⟨k, fs⟩ := acc
        rw [groupStep_field_some k fs hb hf] at hr
        cases hr
    · replace hf : isFieldCell fTag c = false := by
        cases h : isFieldCell fTag c
        · rfl
        · exact absurd h hf
      rw [groupStep_other st hb hf] at hr
      cases hr

theorem groupAux_fields_ne_nil (bTag fTag : String) :
    ∀ (cs : List Cell) (st : Option GroupState), ∀ r ∈ groupAux bTag fTag st cs, r.fields ≠ [] := by
  intro cs
  induction cs with
  | nil =>
    intro st r hr
    cases st with
    | none =>
      rw [groupAux_nil_none] at hr
      cases hr
    | some acc =>
      obtain ⟨k, fs⟩ := acc
      cases fs with
      | nil =>
        rw [groupAux_nil_empty] at hr
        cases hr
      | cons f fs =>
        rw [groupAux_nil_fed] at hr
        simp only [List.mem_singleton] at hr
        subst hr
        simp [flushRec]
  | cons c cs ih =>
    intro st r hr
    rw [groupAux_cons] at hr
    rcases List.mem_append.mp hr with h1 | h2
    · exact groupStep_emit_ne_nil bTag fTag st c r h1
    · exact ih _ r h2

/-- Claim C9: for every finite cell stream the Record Grouper emits at
most one RawRecord per boundary cell, with equality exactly when every
opened accumulator receives at least one field cell; an accumulator that
never receives a field cell is never flushed, so every emitted record has
a non-empty field list. -/
theorem c9_grouper_record_bound (bTag fTag : String) (cells : List Cell) :
    (groupRecords bTag fTag cells).length ≤ boundaryCount bTag cells
    ∧ ((groupRecords bTag fTag cells).length = boundaryCount bTag cells ↔
        allOpenedFed bTag fTag cells = true)
    ∧ ∀ r ∈ groupRecords bTag fTag cells, r.fields ≠ [] := by
  have hlen := (groupAux_length bTag fTag cells).1
  refine ⟨?_, ?_, ?_⟩
  · rw [groupRecords, hlen]
    exact fedBoundaryCount_le bTag fTag cells
  · rw [groupRecords, hlen]
    exact fedBoundaryCount_eq_iff bTag fTag cells
  · intro r hr
    exact groupAux_fields_ne_nil bTag fTag cells none r hr

/-- Witness for C9: on the brother-sets demo stream the bound holds and a
concrete emitted record has a non-empty field list. -/
theorem c9_witness :
    (groupRecords "idx" "box" demoCells).length ≤ boundaryCount "idx" demoCells
    ∧ (RawRecord.mk "1." ["Hank Aaron", "Tommie Aaron"]).fields ≠ [] :=
  ⟨(c9_grouper_record_bound "idx" "box" demoCells).1,
   (c9_grouper_record_bound "idx" "box" demoCells).2.2 ⟨"1.", ["Hank Aaron", "Tommie Aaron"]⟩
     (by decide)⟩

end Baseball
